import Mathlib

/-!
Shallow embedding of the class `HocStimuliCreator` from
`emodelrunner/create_hoc_tools.py` and verification of the specification
claims about it.

Modelling conventions:
* A protocol dictionary is a `Prot` structure whose `Option` fields correspond
  to the dictionary keys the Python code looks up (`"type"`, `"stimuli"`,
  `"extra_recordings"`, and inside `"stimuli"` the keys `"holding"`, `"step"`,
  `"ramp"`, `"syn_start"`, `"syn_stop"`, `"syn_stim_seed"`, `"syn_interval"`,
  `"syn_nmb_of_spikes"`, `"syn_noise"`).  Scalar leaf values are carried as the
  strings they interpolate to inside the generated hoc text (which is all the
  Python code does with them).
* Lookups that can raise (`KeyError` on a missing key, `IndexError` on
  `step_definitions[0]` for an empty list) are modelled in `Except String`.
* The mutable attributes of the class become the `HocState` record, and the
  `__init__` loop over `prot_definitions.items()` becomes `processList` over an
  association list (Python dict iteration order is insertion order).
* Python's `self.extra_recs_vars.split(", ")` is modelled by `pySplitCS` on the
  character list of the string, mirroring `str.split` with separator `", "`.
-/

/-- One entry of `prot["stimuli"]["step"]`: the keys read by `get_step_hoc`. -/
structure StepEntry where
  duration : String
  delay : String
  amp : String
  totduration : String
  deriving DecidableEq

/-- The `prot["stimuli"]["holding"]` payload: keys read by `get_step_hoc` and
`get_ramp_hoc`. -/
structure Holding where
  duration : String
  delay : String
  amp : String
  deriving DecidableEq

/-- The `prot["stimuli"]["step"]` value: the source accepts either a single
dict (`isinstance(step_definitions, dict)`) or a list of dicts. -/
inductive StepDefs where
  | single (s : StepEntry)
  | multiple (l : List StepEntry)
  deriving DecidableEq

/-- Normalisation performed by `get_step_hoc`: a single dict is wrapped into a
one-element list. -/
def stepDefsList : StepDefs → List StepEntry
  | StepDefs.single s => [s]
  | StepDefs.multiple l => l

/-- The `prot["stimuli"]["ramp"]` payload: keys read by `get_ramp_hoc`. -/
structure RampDef where
  ramp_delay : String
  ramp_amplitude_start : String
  ramp_duration : String
  ramp_amplitude_end : String
  totduration : String
  deriving DecidableEq

/-- The `prot["stimuli"]` dictionary, with one optional field per key the
source can look up. -/
structure Stimuli where
  holding : Option Holding
  step : Option StepDefs
  ramp : Option RampDef
  syn_start : Option String
  syn_stop : Option String
  syn_stim_seed : Option String
  syn_interval : Option String
  syn_nmb_of_spikes : Option String
  syn_noise : Option String
  deriving DecidableEq

/-- Variant-specific geometry payload of an extra recording, tagged by its
`"type"` key (`nrnseclistcomp`, `somadistance`, `somadistanceapic`). -/
inductive ExtraRecType where
  | nrnseclistcomp (sec_index : String) (comp_x : String)
  | somadistance (somadistance : String)
  | somadistanceapic (somadistance : String)
  deriving DecidableEq

/-- One entry of a protocol's `extra_recordings` list. -/
structure ExtraRec where
  name : String
  seclist_name : String
  var : String
  rectype : ExtraRecType
  deriving DecidableEq

/-- One entry of the `prot_definitions` mapping, keyed by protocol name. -/
structure Prot where
  type : Option String
  stimuli : Option Stimuli
  extra_recordings : Option (List ExtraRec)
  deriving DecidableEq

/-- The mutable attributes of `HocStimuliCreator` (without the constant
`apical_point_isec`, which is passed around explicitly). -/
structure HocState where
  n_stims : Nat
  max_steps : Nat
  reset_step_stimuli : String
  init_step_stimuli : String
  stims_hoc : String
  save_recs : String
  extra_recs_vars : String
  extra_recs : String
  deriving DecidableEq

/-- Attribute values set at the top of `__init__`. -/
def initState : HocState :=
  { n_stims := 0, max_steps := 0, reset_step_stimuli := "", init_step_stimuli := "",
    stims_hoc := "", save_recs := "", extra_recs_vars := "", extra_recs := "" }

/-- Model of Python's `s.split(", ")` on the character list of `s`: scan left
to right for non-overlapping occurrences of the two-character separator. -/
def pySplitCS : List Char → List (List Char)
  | [] => [[]]
  | [c] => [[c]]
  | c1 :: c2 :: rest =>
    if c1 == ',' && c2 == ' ' then
      [] :: pySplitCS rest
    else
      match pySplitCS (c2 :: rest) with
      | [] => [[c1]]
      | x :: xs => (c1 :: x) :: xs

/-- A character list is separator-free when it contains no occurrence of the
two-character separator `", "`. -/
def sepFree : List Char → Bool
  | [] => true
  | [_] => true
  | c1 :: c2 :: rest => !(c1 == ',' && c2 == ' ') && sepFree (c2 :: rest)

/-- The hoc fragment a single extra recording contributes to
`self.extra_recs`, by recording type (the f-strings of `add_extra_recs`). -/
def extra_rec_fragment (apical_point_isec : Int) (r : ExtraRec) : String :=
  match r.rectype with
  | ExtraRecType.nrnseclistcomp sec_index comp_x =>
    "\n                        " ++ r.name ++ " = new Vector()\n                        cell." ++ r.seclist_name ++ "[" ++ sec_index ++ "] " ++ r.name ++ ".record(&" ++ r.var ++ "(" ++ comp_x ++ "), 0.1)\n                    "
  | ExtraRecType.somadistance somadistance =>
    "\n                        " ++ r.name ++ " = new Vector()\n                        secref = find_isec_at_soma_distance(cell." ++ r.seclist_name ++ ", " ++ somadistance ++ ")\n                        comp_x = find_comp_x_at_soma_distance(secref, " ++ somadistance ++ ")\n\n                        secref.sec " ++ r.name ++ ".record(&" ++ r.var ++ "(comp_x), 0.1)\n                    "
  | ExtraRecType.somadistanceapic somadistance =>
    "\n                        " ++ r.name ++ " = new Vector()\n                        apical_branch = get_apical_branch(" ++ toString apical_point_isec ++ ")\n                        secref = find_isec_at_soma_distance(apical_branch, " ++ somadistance ++ ")\n                        comp_x = find_comp_x_at_soma_distance(secref, " ++ somadistance ++ ")\n\n                        secref.sec " ++ r.name ++ ".record(&" ++ r.var ++ "(comp_x), 0.1)\n                    "

/-- One iteration of the loop body of `add_extra_recs`: the duplicate check
`if name not in self.extra_recs_vars.split(", ")`, then appending
`f", {name}"` to the variable list and the declaration fragment. -/
def add_extra_rec (apical_point_isec : Int) (st : HocState) (r : ExtraRec) : HocState :=
  if (pySplitCS st.extra_recs_vars.data).contains r.name.data then st
  else
    { st with extra_recs_vars := st.extra_recs_vars ++ (", " ++ r.name),
              extra_recs := st.extra_recs ++ extra_rec_fragment apical_point_isec r }

/-- The method `add_extra_recs`: iterate `add_extra_rec` over the list. -/
def add_extra_recs (apical_point_isec : Int) (st : HocState) (recs : List ExtraRec) : HocState :=
  recs.foldl (add_extra_rec apical_point_isec) st

/-- The holding-clamp f-string shared by `get_step_hoc` and `get_ramp_hoc`. -/
def holding_hoc (hold : Holding) : String :=
  "\n                holding_stimulus = new IClamp(0.5)\n                holding_stimulus.dur = " ++ hold.duration ++ "\n                holding_stimulus.del = " ++ hold.delay ++ "\n                holding_stimulus.amp = " ++ hold.amp ++ "\n\n                cell.soma holding_stimulus\n            "

/-- The per-step f-string of `get_step_hoc` for the step at index `i` of the
normalised step list (`enumerate` starts at 0). -/
def step_entry_hoc (i : Nat) (step : StepEntry) : String :=
  "\n                step_stimulus_" ++ toString i ++ " = new IClamp(0.5)\n                step_stimulus_" ++ toString i ++ ".dur = " ++ step.duration ++ "\n                step_stimulus_" ++ toString i ++ ".del = " ++ step.delay ++ "\n                step_stimulus_" ++ toString i ++ ".amp = " ++ step.amp ++ "\n\n                cell.soma step_stimulus_" ++ toString i ++ "\n            "

/-- The method `get_step_hoc`.  It reads `prot["stimuli"]` (optionally
`["holding"]`), normalises `["step"]`, updates `self.max_steps` to the maximum
of its old value and the step count, and ends with
`tstop={step_definitions[0]["totduration"]}` (an `IndexError` on an empty
list).  Returns the fragment together with the new `max_steps`. -/
def get_step_hoc (max_steps : Nat) (prot : Prot) : Except String (String × Nat) :=
  match prot.stimuli with
  | none => Except.error "KeyError: stimuli"
  | some stimuli =>
    match stimuli.step with
    | none => Except.error "KeyError: step"
    | some sd =>
      match stepDefsList sd with
      | [] => Except.error "IndexError: list index out of range"
      | s0 :: _ =>
        Except.ok
          ((match stimuli.holding with
            | some hold => holding_hoc hold
            | none => "")
            ++ String.join ((stepDefsList sd).enum.map (fun p => step_entry_hoc p.1 p.2))
            ++ ("tstop=" ++ s0.totduration),
           Nat.max max_steps (stepDefsList sd).length)

/-- The six `(time, amplitude)` argument pairs appended to `ramp_times` /
`ramp_amps` by the template of `get_ramp_hoc`, in template order.  The fourth
and fifth time arguments are emitted as the hoc sum `{delay} + {duration}`. -/
def ramp_append_args (rd : RampDef) : List (String × String) :=
  [("0.0", "0.0"),
   (rd.ramp_delay, "0.0"),
   (rd.ramp_delay, rd.ramp_amplitude_start),
   (rd.ramp_delay ++ " + " ++ rd.ramp_duration, rd.ramp_amplitude_end),
   (rd.ramp_delay ++ " + " ++ rd.ramp_duration, "0.0"),
   (rd.totduration, "0.0")]

/-- The text of one `ramp_times.append(...)` / `ramp_amps.append(...)` pair in
the vector-building template of `get_ramp_hoc`. -/
def ramp_append_hoc (p : String × String) : String :=
  "\n            ramp_times.append(" ++ p.1 ++ ")\n            ramp_amps.append(" ++ p.2 ++ ")\n"

/-- The vector-building part of `get_ramp_hoc` (the `.format(...)` template
that declares `ramp_times` / `ramp_amps` and appends the six pairs). -/
def ramp_vectors_hoc (rd : RampDef) : String :=
  "\n            ramp_times = new Vector()\n            ramp_amps = new Vector()\n"
    ++ String.join ((ramp_append_args rd).map ramp_append_hoc)
    ++ "        "

/-- The `IClamp` / `play` part of `get_ramp_hoc`. -/
def ramp_play_hoc (rd : RampDef) : String :=
  "\n            ramp_stimulus = new IClamp(0.5)\n            ramp_stimulus.dur = " ++ rd.totduration ++ "\n\n            ramp_amps.play(&ramp_stimulus.amp, ramp_times, 1)\n\n            cell.soma ramp_stimulus\n        "

/-- The static method `get_ramp_hoc`: optional holding clamp, the vector
template, the play template, then `tstop={totduration}`. -/
def get_ramp_hoc (prot : Prot) : Except String String :=
  match prot.stimuli with
  | none => Except.error "KeyError: stimuli"
  | some stimuli =>
    match stimuli.ramp with
    | none => Except.error "KeyError: ramp"
    | some rd =>
      Except.ok ((match stimuli.holding with
        | some hold => holding_hoc hold
        | none => "")
        ++ ramp_vectors_hoc rd ++ ramp_play_hoc rd ++ ("tstop=" ++ rd.totduration))

/-- The static method `get_vecstim_hoc`: `tstop={syn_stop}` then the
`create_netcons` directive with `mode=0`, `itv=0`, `n_spike=0`, `noise=0` and
the seed taken from `syn_stim_seed`. -/
def get_vecstim_hoc (prot : Prot) : Except String String :=
  match prot.stimuli with
  | none => Except.error "KeyError: stimuli"
  | some stim =>
    match stim.syn_stop with
    | none => Except.error "KeyError: syn_stop"
    | some tf =>
      match stim.syn_start with
      | none => Except.error "KeyError: syn_start"
      | some t0 =>
        match stim.syn_stim_seed with
        | none => Except.error "KeyError: syn_stim_seed"
        | some seed =>
          Except.ok ("tstop=" ++ tf ++ "\n" ++ ("cell.synapses.create_netcons " ++ "(0," ++ t0 ++ "," ++ tf ++ ",0,0,0," ++ seed ++ ")"))

/-- The static method `get_netstim_hoc`: `tstop={syn_stop}` then the
`create_netcons` directive with `mode=1`, interval, spike count and noise from
the protocol and the seed fixed to 0. -/
def get_netstim_hoc (prot : Prot) : Except String String :=
  match prot.stimuli with
  | none => Except.error "KeyError: stimuli"
  | some stim =>
    match stim.syn_stop with
    | none => Except.error "KeyError: syn_stop"
    | some tf =>
      match stim.syn_start with
      | none => Except.error "KeyError: syn_start"
      | some t0 =>
        match stim.syn_interval with
        | none => Except.error "KeyError: syn_interval"
        | some itv =>
          match stim.syn_nmb_of_spikes with
          | none => Except.error "KeyError: syn_nmb_of_spikes"
          | some n_spike =>
            match stim.syn_noise with
            | none => Except.error "KeyError: syn_noise"
            | some noise =>
              Except.ok ("tstop=" ++ tf ++ "\n" ++ ("cell.synapses.create_netcons" ++ "(1," ++ t0 ++ "," ++ tf ++ "," ++ itv ++ "," ++ n_spike ++ "," ++ noise ++ ",0)"))

/-- The method `get_stim_hoc`: wrap a stimulus body in the conditional block
`if (stim_number == {self.n_stims}) { ... }`. -/
def get_stim_hoc (n_stims : Nat) (body : String) : String :=
  "\n            if (stim_number == " ++ toString n_stims ++ ") \x7b\n        " ++ body ++ "\n            \x7d\n        "

/-- The per-extra-recording write block appended by
`add_save_recordings_hoc`. -/
def save_rec_block (mtype : String) (prot_name : String) (r : ExtraRec) : String :=
  "\n                    sprint(fpath.s, \"hoc_recordings/" ++ mtype ++ "." ++ prot_name ++ "." ++ r.name ++ "." ++ r.var ++ ".dat\")\n                    timevoltage = new Matrix(time.size(), 2)\n                    timevoltage.setcol(0, time)\n                    timevoltage.setcol(1, " ++ r.name ++ ")\n                    write_output_file(fpath, timevoltage)\n                "

/-- The method `add_save_recordings_hoc`: the conditional block guarded by
`stim_number == {self.n_stims}` that writes the primary soma voltage trace,
one write per entry of the protocol's `extra_recordings`, and the closing
brace. -/
def add_save_recordings_hoc (mtype : String) (prot_name : String) (prot : Prot) (n_stims : Nat) : String :=
  ("\n            if (stim_number == " ++ toString n_stims ++ ") \x7b\n                sprint(fpath.s, \"hoc_recordings/" ++ mtype ++ "." ++ prot_name ++ ".soma.v.dat\")\n                timevoltage = new Matrix(time.size(), 2)\n                timevoltage.setcol(0, time)\n                timevoltage.setcol(1, voltage)\n                write_output_file(fpath, timevoltage)\n        ")
    ++ (match prot.extra_recordings with
        | some recs => String.join (recs.map (save_rec_block mtype prot_name))
        | none => "")
    ++ "\n            \x7d\n        "

/-- The per-index f-string of `get_reset_step`. -/
def reset_step_block (i : Nat) : String :=
  "\n                step_stimulus_" ++ toString i ++ " = new IClamp(0.5)\n                step_stimulus_" ++ toString i ++ ".dur = 0.0\n                step_stimulus_" ++ toString i ++ ".del = 0.0\n                step_stimulus_" ++ toString i ++ ".amp = 0.0\n\n                cell.soma step_stimulus_" ++ toString i ++ "\n            "

/-- The method `get_reset_step`: `for i in range(max(self.max_steps, 1))`
append a reset block. -/
def get_reset_step (max_steps : Nat) : String :=
  (List.range (Nat.max max_steps 1)).foldl (fun acc i => acc ++ reset_step_block i) ""

/-- The per-index f-string of `get_init_step`. -/
def init_step_block (i : Nat) : String :=
  "\n                objref step_stimulus_" ++ toString i ++ "\n            "

/-- The method `get_init_step`: `for i in range(max(self.max_steps, 1))`
append an `objref` declaration. -/
def get_init_step (max_steps : Nat) : String :=
  (List.range (Nat.max max_steps 1)).foldl (fun acc i => acc ++ init_step_block i) ""

/-- One iteration of the `__init__` loop over `prot_definitions.items()`:
merge `extra_recordings` if present, then dispatch on `prot["type"]`
(`StepProtocol`, `RampProtocol`, and — only with `add_synapses` — `Vecstim`
and `Netstim`); any other type falls through all branches.  Each dispatching
branch increments `n_stims`, appends the wrapped stimulus fragment and the
matching recording-save fragment. -/
def process_prot (mtype : String) (add_synapses : Bool) (apical_point_isec : Int)
    (st : HocState) (np : String × Prot) : Except String HocState :=
  let prot_name := np.1
  let prot := np.2
  let st0 :=
    match prot.extra_recordings with
    | some recs => add_extra_recs apical_point_isec st recs
    | none => st
  if prot.type == some "StepProtocol" then
    let st1 := { st0 with n_stims := st0.n_stims + 1 }
    match get_step_hoc st1.max_steps prot with
    | Except.error e => Except.error e
    | Except.ok bm =>
      let st2 := { st1 with max_steps := bm.snd, stims_hoc := st1.stims_hoc ++ get_stim_hoc st1.n_stims bm.fst }
      Except.ok { st2 with save_recs := st2.save_recs ++ add_save_recordings_hoc mtype prot_name prot st2.n_stims }
  else if prot.type == some "RampProtocol" then
    let st1 := { st0 with n_stims := st0.n_stims + 1 }
    match get_ramp_hoc prot with
    | Except.error e => Except.error e
    | Except.ok body =>
      let st2 := { st1 with stims_hoc := st1.stims_hoc ++ get_stim_hoc st1.n_stims body }
      Except.ok { st2 with save_recs := st2.save_recs ++ add_save_recordings_hoc mtype prot_name prot st2.n_stims }
  else if prot.type == some "Vecstim" && add_synapses then
    let st1 := { st0 with n_stims := st0.n_stims + 1 }
    match get_vecstim_hoc prot with
    | Except.error e => Except.error e
    | Except.ok body =>
      let st2 := { st1 with stims_hoc := st1.stims_hoc ++ get_stim_hoc st1.n_stims body }
      Except.ok { st2 with save_recs := st2.save_recs ++ add_save_recordings_hoc mtype prot_name prot st2.n_stims }
  else if prot.type == some "Netstim" && add_synapses then
    let st1 := { st0 with n_stims := st0.n_stims + 1 }
    match get_netstim_hoc prot with
    | Except.error e => Except.error e
    | Except.ok body =>
      let st2 := { st1 with stims_hoc := st1.stims_hoc ++ get_stim_hoc st1.n_stims body }
      Except.ok { st2 with save_recs := st2.save_recs ++ add_save_recordings_hoc mtype prot_name prot st2.n_stims }
  else
    Except.ok st0

/-- The `__init__` loop: process the protocol entries in mapping order,
propagating the first error. -/
def processList (mtype : String) (add_synapses : Bool) (apical_point_isec : Int)
    (st : HocState) : List (String × Prot) → Except String HocState
  | [] => Except.ok st
  | np :: rest =>
    match process_prot mtype add_synapses apical_point_isec st np with
    | Except.error e => Except.error e
    | Except.ok st1 => processList mtype add_synapses apical_point_isec st1 rest

/-- The constructor `HocStimuliCreator.__init__`: run the loop from the
zero-initialised attributes, then `get_reset_step` and `get_init_step`. -/
def hocStimuliCreatorInit (prot_definitions : List (String × Prot)) (mtype : String)
    (add_synapses : Bool) (apical_point_isec : Int) : Except String HocState :=
  match processList mtype add_synapses apical_point_isec initState prot_definitions with
  | Except.error e => Except.error e
  | Except.ok st =>
    Except.ok { st with reset_step_stimuli := get_reset_step st.max_steps,
                        init_step_stimuli := get_init_step st.max_steps }

/-- A protocol is dispatchable when the `__init__` loop emits a stimulus block
for it: `StepProtocol` and `RampProtocol` always, `Vecstim` and `Netstim` only
when synapses are enabled. -/
def dispatchable (add_synapses : Bool) (p : Prot) : Bool :=
  p.type == some "StepProtocol" || p.type == some "RampProtocol" ||
    ((p.type == some "Vecstim" || p.type == some "Netstim") && add_synapses)

/-- Concatenation of conditional stimulus blocks for the given bodies, with
guard indices `base + 1, base + 2, ...` in list order. -/
def guardBlocks (base : Nat) : List String → String
  | [] => ""
  | b :: bs => get_stim_hoc (base + 1) b ++ guardBlocks (base + 1) bs

/-- Concatenation of recording-save blocks for the given named protocols, with
guard indices `base + 1, base + 2, ...` in list order. -/
def saveBlocks (mtype : String) (base : Nat) : List (String × Prot) → String
  | [] => ""
  | np :: rest => add_save_recordings_hoc mtype np.1 np.2 (base + 1) ++ saveBlocks mtype (base + 1) rest

/-- The number of step entries of a protocol after the single-dict
normalisation of `get_step_hoc` (0 if the keys are absent). -/
def stepCount (p : Prot) : Nat :=
  match p.stimuli with
  | some s =>
    match s.step with
    | some sd => (stepDefsList sd).length
    | none => 0
  | none => 0

/-- How `self.max_steps` evolves over the protocol list: each `StepProtocol`
raises it to the maximum of its old value and that protocol's step count. -/
def maxStepsFold (m : Nat) : List (String × Prot) → Nat
  | [] => m
  | np :: rest =>
    maxStepsFold (if np.2.type == some "StepProtocol" then Nat.max m (stepCount np.2) else m) rest

/-- The `stimuli` sub-fields `get_step_hoc` requires: the `step` key under a
present `stimuli` key, with a non-empty normalised step list (the source also
reads `step_definitions[0]["totduration"]`). -/
def stepOk (p : Prot) : Bool :=
  match p.stimuli with
  | some s =>
    match s.step with
    | some sd => !(stepDefsList sd).isEmpty
    | none => false
  | none => false

/-- The `stimuli` sub-fields `get_ramp_hoc` requires. -/
def rampOk (p : Prot) : Bool :=
  match p.stimuli with
  | some s => s.ramp.isSome
  | none => false

/-- The `stimuli` sub-fields `get_vecstim_hoc` requires. -/
def vecOk (p : Prot) : Bool :=
  match p.stimuli with
  | some s => s.syn_stop.isSome && s.syn_start.isSome && s.syn_stim_seed.isSome
  | none => false

/-- The `stimuli` sub-fields `get_netstim_hoc` requires. -/
def netOk (p : Prot) : Bool :=
  match p.stimuli with
  | some s => s.syn_stop.isSome && s.syn_start.isSome && s.syn_interval.isSome
                && s.syn_nmb_of_spikes.isSome && s.syn_noise.isSome
  | none => false

/-- Well-formedness of one protocol for the construction, per declared type:
see `stepOk`, `rampOk`, `vecOk`, `netOk`.  A protocol whose type is missing,
unrecognised, or a synapse type while synapses are disabled, imposes no
requirement. -/
def protOk (add_synapses : Bool) (p : Prot) : Bool :=
  if p.type == some "StepProtocol" then stepOk p
  else if p.type == some "RampProtocol" then rampOk p
  else if p.type == some "Vecstim" && add_synapses then vecOk p
  else if p.type == some "Netstim" && add_synapses then netOk p
  else true

/-- The unconditional first action of the loop body: merge the protocol's
`extra_recordings` (if any) into the accumulated registry. -/
def extra_step (apical_point_isec : Int) (st : HocState) (p : Prot) : HocState :=
  match p.extra_recordings with
  | some recs => add_extra_recs apical_point_isec st recs
  | none => st

/-- The extra-recording list of one protocol (empty when the key is absent). -/
def protRecs (p : Prot) : List ExtraRec :=
  match p.extra_recordings with
  | some recs => recs
  | none => []

/-- All extra-recording entries of the mapping, in protocol order then list
order. -/
def allExtraRecs : List (String × Prot) → List ExtraRec
  | [] => []
  | np :: rest => protRecs np.2 ++ allExtraRecs rest

/-- Reference deduplication following the specification's words: keep the
first occurrence of each name, skip every later entry whose name was already
seen. -/
def specDedup (seen : List String) : List ExtraRec → List ExtraRec
  | [] => []
  | r :: rs =>
    if r.name ∈ seen then specDedup seen rs
    else r :: specDedup (seen ++ [r.name]) rs

/-- Character-list form of the accumulated variable string for a list of
registered names: `", n1, n2, ..."`. -/
def namesFlat : List (List Char) → List Char
  | [] => []
  | n :: rest => ',' :: ' ' :: (n ++ namesFlat rest)

/-- The accumulated `extra_recs_vars` string for a list of registered
names. -/
def namesFlatStr (names : List String) : String :=
  String.join (names.map (fun n => ", " ++ n))

/-- Shape invariant of `extra_recs_vars`: it is empty or starts with the
separator `", "`. -/
def varsShape (s : String) : Prop :=
  s.data = [] ∨ ∃ t, s.data = ',' :: ' ' :: t

/-- The six `(time, amplitude)` points appended by the ramp template of
`get_ramp_hoc`, with the parameters as rationals and the emitted hoc sum
`{delay} + {duration}` evaluated. -/
def rampAppendedPoints (ramp_delay ramp_duration ramp_amplitude_start ramp_amplitude_end totduration : ℚ) : List (ℚ × ℚ) :=
  [(0, 0),
   (ramp_delay, 0),
   (ramp_delay, ramp_amplitude_start),
   (ramp_delay + ramp_duration, ramp_amplitude_end),
   (ramp_delay + ramp_duration, 0),
   (totduration, 0)]

/-- Whether an `Except` computation succeeded. -/
def isOkB {ε α : Type} : Except ε α → Bool
  | Except.ok _ => true
  | Except.error _ => false

/-- A `stimuli` dictionary with no keys. -/
def emptyStimuli : Stimuli :=
  ⟨none, none, none, none, none, none, none, none, none⟩

/-- Sample step entry. -/
def demoStepEntry : StepEntry := ⟨"1350", "700", "0.2", "3000"⟩

/-- Second sample step entry. -/
def demoStepEntry2 : StepEntry := ⟨"400", "100", "0.35", "3000"⟩

/-- Sample ramp definition matching the concrete numbers of the ramp-envelope
specification example. -/
def demoRamp : RampDef := ⟨"10", "0.1", "20", "0.5", "50"⟩

/-- Sample `RampProtocol` entry. -/
def demoRampProt : Prot :=
  { type := some "RampProtocol",
    stimuli := some { emptyStimuli with ramp := some demoRamp },
    extra_recordings := none }

/-- Sample extra recording. -/
def demoRec : ExtraRec :=
  ⟨"extrec", "apical", "v", ExtraRecType.nrnseclistcomp "3" "0.5"⟩

/-- Sample mapping with one ramp protocol. -/
def c1Prots : List (String × Prot) := [("RampIV", demoRampProt)]

/-- State constructed from `c1Prots`. -/
def c1St : HocState :=
  match hocStimuliCreatorInit c1Prots "cADpyr" true (-1) with
  | Except.ok st => st
  | Except.error _ => initState

/-- Sample `Vecstim` protocol that also declares an extra recording. -/
def c5Prot : Prot :=
  { type := some "Vecstim",
    stimuli := some { emptyStimuli with syn_start := some "50", syn_stop := some "200",
                                        syn_stim_seed := some "42" },
    extra_recordings := some [demoRec] }

/-- Sample `Netstim` protocol. -/
def c6NetProt : Prot :=
  { type := some "Netstim",
    stimuli := some { emptyStimuli with syn_start := some "50", syn_stop := some "200",
                                        syn_interval := some "10", syn_nmb_of_spikes := some "5",
                                        syn_noise := some "0.1" },
    extra_recordings := none }

/-- Sample `StepProtocol` with two step entries. -/
def c8StepProt2 : Prot :=
  { type := some "StepProtocol",
    stimuli := some { emptyStimuli with step := some (StepDefs.multiple [demoStepEntry, demoStepEntry2]) },
    extra_recordings := none }

/-- Sample `StepProtocol` with a single (dict-valued) step entry. -/
def c8StepProt1 : Prot :=
  { type := some "StepProtocol",
    stimuli := some { emptyStimuli with step := some (StepDefs.single demoStepEntry) },
    extra_recordings := none }

/-- Mapping with one two-step and one one-step `StepProtocol`. -/
def c8Prots : List (String × Prot) := [("Step2", c8StepProt2), ("Step1", c8StepProt1)]

/-- State constructed from `c8Prots`. -/
def c8St : HocState :=
  match hocStimuliCreatorInit c8Prots "L5TPC" false (-1) with
  | Except.ok st => st
  | Except.error _ => initState

/-- A `StepProtocol` whose `stimuli` payload lacks the `step` key. -/
def c9BadProt : Prot :=
  { type := some "StepProtocol", stimuli := some emptyStimuli, extra_recordings := none }

/-- Extra recording whose name contains the separator `", "`. -/
def recAB : ExtraRec :=
  ⟨"a, b", "somatic", "v", ExtraRecType.nrnseclistcomp "0" "0.5"⟩

/-- Extra recording named `b`. -/
def recB : ExtraRec :=
  ⟨"b", "somatic", "v", ExtraRecType.nrnseclistcomp "0" "0.5"⟩

/-- Extra recording with an empty name. -/
def recEmpty : ExtraRec :=
  ⟨"", "somatic", "v", ExtraRecType.somadistance "100"⟩

/-- Inert protocol carrying the same comma-containing extra-recording name
twice. -/
def cexProt : Prot :=
  { type := none, stimuli := none, extra_recordings := some [recAB, recAB] }

/-- Extra recording named `rx`. -/
def recX : ExtraRec :=
  ⟨"rx", "somatic", "v", ExtraRecType.nrnseclistcomp "0" "0.5"⟩

/-- Extra recording named `ry`. -/
def recY : ExtraRec :=
  ⟨"ry", "apical", "cai", ExtraRecType.somadistance "100"⟩

/-- Mapping whose protocols carry duplicate (separator-free) extra-recording
names. -/
def c4Prots : List (String × Prot) :=
  [("P1", { type := none, stimuli := none, extra_recordings := some [recX, recY, recX] }),
   ("P2", { type := none, stimuli := none, extra_recordings := some [recY] })]

/-- State constructed from `c4Prots`. -/
def c4St : HocState :=
  match hocStimuliCreatorInit c4Prots "L5TPC" false (-1) with
  | Except.ok st => st
  | Except.error _ => initState

theorem strJoin_gen (l : List String) : ∀ (a : String),
    l.foldl (fun r t => r ++ t) a = a ++ l.foldl (fun r t => r ++ t) "" := by
  induction l with
  | nil => intro a; simp [List.foldl]
  | cons x xs ih =>
    intro a
    simp only [List.foldl]
    rw [ih (a ++ x), ih ("" ++ x)]
    simp [String.append_assoc]

theorem strJoin_cons (s : String) (l : List String) : String.join (s :: l) = s ++ String.join l := by
  simp only [String.join, List.foldl]
  rw [strJoin_gen]
  simp

theorem foldl_append_join {α : Type} (f : α → String) :
    ∀ (l : List α) (a : String), l.foldl (fun acc i => acc ++ f i) a = a ++ String.join (l.map f) := by
  intro l
  induction l with
  | nil => intro a; simp [String.join, List.foldl]
  | cons x xs ih =>
    intro a
    simp only [List.foldl, List.map]
    rw [ih, strJoin_cons, ← String.append_assoc]

theorem add_extra_rec_fields (api : Int) (st : HocState) (r : ExtraRec) :
    (add_extra_rec api st r).n_stims = st.n_stims ∧
    (add_extra_rec api st r).max_steps = st.max_steps ∧
    (add_extra_rec api st r).stims_hoc = st.stims_hoc ∧
    (add_extra_rec api st r).save_recs = st.save_recs := by
  unfold add_extra_rec
  split <;> simp

theorem add_extra_recs_fields (api : Int) : ∀ (recs : List ExtraRec) (st : HocState),
    (add_extra_recs api st recs).n_stims = st.n_stims ∧
    (add_extra_recs api st recs).max_steps = st.max_steps ∧
    (add_extra_recs api st recs).stims_hoc = st.stims_hoc ∧
    (add_extra_recs api st recs).save_recs = st.save_recs := by
  intro recs
  induction recs with
  | nil => intro st; simp [add_extra_recs]
  | cons r rs ih =>
    intro st
    have h1 := add_extra_rec_fields api st r
    have h2 := ih (add_extra_rec api st r)
    simp only [add_extra_recs, List.foldl] at h2 ⊢
    exact ⟨h2.1.trans h1.1, h2.2.1.trans h1.2.1, h2.2.2.1.trans h1.2.2.1, h2.2.2.2.trans h1.2.2.2⟩

theorem extra_step_fields (api : Int) (st : HocState) (p : Prot) :
    (extra_step api st p).n_stims = st.n_stims ∧
    (extra_step api st p).max_steps = st.max_steps ∧
    (extra_step api st p).stims_hoc = st.stims_hoc ∧
    (extra_step api st p).save_recs = st.save_recs := by
  unfold extra_step
  split
  · exact add_extra_recs_fields _ _ _
  · simp

theorem process_prot_ok_shape (mtype : String) (syn : Bool) (api : Int) (st st1 : HocState)
    (np : String × Prot) (h : process_prot mtype syn api st np = Except.ok st1) :
    (dispatchable syn np.2 = false → st1 = extra_step api st np.2) ∧
    (dispatchable syn np.2 = true →
      ∃ body newMax,
        st1 = { extra_step api st np.2 with
                n_stims := (extra_step api st np.2).n_stims + 1,
                max_steps := newMax,
                stims_hoc := (extra_step api st np.2).stims_hoc
                  ++ get_stim_hoc ((extra_step api st np.2).n_stims + 1) body,
                save_recs := (extra_step api st np.2).save_recs
                  ++ add_save_recordings_hoc mtype np.1 np.2 ((extra_step api st np.2).n_stims + 1) }) := by
  unfold process_prot at h
  by_cases h1 : np.2.type == some "StepProtocol"
  · simp only [h1, if_true] at h
    constructor
    · intro hd
      simp [dispatchable, h1] at hd
    · intro _
      cases hg : get_step_hoc (extra_step api st np.2).max_steps np.2 with
      | error e => rw [show (match np.2.extra_recordings with
          | some recs => add_extra_recs api st recs
          | none => st) = extra_step api st np.2 from rfl] at h; rw [hg] at h; exact absurd h (by simp)
      | ok bm =>
        rw [show (match np.2.extra_recordings with
          | some recs => add_extra_recs api st recs
          | none => st) = extra_step api st np.2 from rfl] at h
        rw [hg] at h
        refine ⟨bm.fst, bm.snd, ?_⟩
        cases h
        rfl
  · by_cases h2 : np.2.type == some "RampProtocol"
    · simp only [h1, h2, if_false, if_true, Bool.false_eq_true] at h
      constructor
      · intro hd
        simp [dispatchable, h2] at hd
      · intro _
        cases hg : get_ramp_hoc np.2 with
        | error e => rw [show (match np.2.extra_recordings with
            | some recs => add_extra_recs api st recs
            | none => st) = extra_step api st np.2 from rfl] at h; rw [hg] at h; exact absurd h (by simp)
        | ok body =>
          rw [show (match np.2.extra_recordings with
            | some recs => add_extra_recs api st recs
            | none => st) = extra_step api st np.2 from rfl] at h
          rw [hg] at h
          refine ⟨body, (extra_step api st np.2).max_steps, ?_⟩
          cases h
          rfl
    · by_cases h3 : np.2.type == some "Vecstim" && syn
      · simp only [h1, h2, h3, if_false, if_true, Bool.false_eq_true] at h
        constructor
        · intro hd
          simp only [dispatchable, h1, h2, Bool.false_or] at hd
          rw [Bool.and_comm] at hd
          simp only [Bool.and_or_distrib_left] at hd
          rw [Bool.and_comm syn] at hd
          simp [h3] at hd
        · intro _
          cases hg : get_vecstim_hoc np.2 with
          | error e => rw [show (match np.2.extra_recordings with
              | some recs => add_extra_recs api st recs
              | none => st) = extra_step api st np.2 from rfl] at h; rw [hg] at h; exact absurd h (by simp)
          | ok body =>
            rw [show (match np.2.extra_recordings with
              | some recs => add_extra_recs api st recs
              | none => st) = extra_step api st np.2 from rfl] at h
            rw [hg] at h
            refine ⟨body, (extra_step api st np.2).max_steps, ?_⟩
            cases h
            rfl
      · by_cases h4 : np.2.type == some "Netstim" && syn
        · simp only [h1, h2, h3, h4, if_false, if_true, Bool.false_eq_true] at h
          constructor
          · intro hd
            simp only [dispatchable, h1, h2, Bool.false_or] at hd
            rw [Bool.and_comm] at hd
            simp only [Bool.and_or_distrib_left] at hd
            rw [Bool.and_comm syn, Bool.and_comm syn] at hd
            simp [h3, h4] at hd
          · intro _
            cases hg : get_netstim_hoc np.2 with
            | error e => rw [show (match np.2.extra_recordings with
                | some recs => add_extra_recs api st recs
                | none => st) = extra_step api st np.2 from rfl] at h; rw [hg] at h; exact absurd h (by simp)
            | ok body =>
              rw [show (match np.2.extra_recordings with
                | some recs => add_extra_recs api st recs
                | none => st) = extra_step api st np.2 from rfl] at h
              rw [hg] at h
              refine ⟨body, (extra_step api st np.2).max_steps, ?_⟩
              cases h
              rfl
        · simp only [h1, h2, h3, h4, if_false, Bool.false_eq_true] at h
          constructor
          · intro _
            cases h
            rfl
          · intro hd
            simp only [dispatchable, h1, h2, Bool.false_or] at hd
            rw [Bool.and_comm] at hd
            simp only [Bool.and_or_distrib_left] at hd
            rw [Bool.and_comm syn, Bool.and_comm syn] at hd
            simp [h3, h4] at hd

theorem processList_decomp (mtype : String) (syn : Bool) (api : Int) :
    ∀ (prots : List (String × Prot)) (st stF : HocState),
      processList mtype syn api st prots = Except.ok stF →
      ∃ bodies : List String,
        bodies.length = (prots.filter (fun np => dispatchable syn np.2)).length ∧
        stF.n_stims = st.n_stims + bodies.length ∧
        stF.stims_hoc = st.stims_hoc ++ guardBlocks st.n_stims bodies ∧
        stF.save_recs = st.save_recs ++ saveBlocks mtype st.n_stims (prots.filter (fun np => dispatchable syn np.2)) := by
  intro prots
  induction prots with
  | nil =>
    intro st stF h
    simp only [processList] at h
    cases h
    exact ⟨[], by simp [guardBlocks, saveBlocks]⟩
  | cons np rest ih =>
    intro st stF h
    simp only [processList] at h
    cases hp : process_prot mtype syn api st np with
    | error e => rw [hp] at h; exact absurd h (by simp)
    | ok st1 =>
      rw [hp] at h
      have hshape := process_prot_ok_shape mtype syn api st st1 np hp
      have hext := extra_step_fields api st np.2
      by_cases hd : dispatchable syn np.2
      · obtain ⟨body, newMax, hst1⟩ := hshape.2 hd
        obtain ⟨bodies, hlen, hn, hstims, hsave⟩ := ih st1 stF h
        have hn1 : st1.n_stims = st.n_stims + 1 := by rw [hst1]; simp [hext.1]
        have hs1 : st1.stims_hoc = st.stims_hoc ++ get_stim_hoc (st.n_stims + 1) body := by
          rw [hst1]; simp [hext.1, hext.2.2.1]
        have hr1 : st1.save_recs = st.save_recs ++ add_save_recordings_hoc mtype np.1 np.2 (st.n_stims + 1) := by
          rw [hst1]; simp [hext.1, hext.2.2.2]
        refine ⟨body :: bodies, ?_, ?_, ?_, ?_⟩
        · simp [List.filter, hd, hlen]
        · rw [hn, hn1, List.length_cons]; omega
        · rw [hstims, hs1, hn1, guardBlocks, String.append_assoc]
        · rw [hsave, hr1, hn1]
          have : (np :: rest).filter (fun np => dispatchable syn np.2) = np :: rest.filter (fun np => dispatchable syn np.2) := by
            simp [List.filter, hd]
          rw [this, saveBlocks, String.append_assoc]
      · have hst1 : st1 = extra_step api st np.2 := hshape.1 (by simp [hd])
        obtain ⟨bodies, hlen, hn, hstims, hsave⟩ := ih st1 stF h
        have hfilter : (np :: rest).filter (fun np => dispatchable syn np.2) = rest.filter (fun np => dispatchable syn np.2) := by
          simp [List.filter, hd]
        refine ⟨bodies, ?_, ?_, ?_, ?_⟩
        · rw [hfilter]; exact hlen
        · rw [hn, hst1, hext.1]
        · rw [hstims, hst1, hext.1, hext.2.2.1]
        · rw [hfilter, hsave, hst1, hext.1, hext.2.2.2]

/-- C1: for every protocol mapping that constructs successfully, the stimulus
script is exactly a concatenation of one conditional dispatch block per
dispatchable protocol (`StepProtocol`, `RampProtocol`, and — only when
synapses are enabled — `Vecstim` and `Netstim`), whose guard indices are the
contiguous 1-based sequence in mapping iteration order, the final stimulus
count equals the number of dispatchable protocols, and the recording-save
script is the concatenation of the per-protocol save blocks guarded by the
same indices in the same order. -/
theorem claim_C1_dispatch_blocks (prots : List (String × Prot)) (mtype : String)
    (syn : Bool) (api : Int) (st : HocState)
    (h : hocStimuliCreatorInit prots mtype syn api = Except.ok st) :
    st.n_stims = (prots.filter (fun np => dispatchable syn np.2)).length ∧
    ∃ bodies : List String,
      bodies.length = (prots.filter (fun np => dispatchable syn np.2)).length ∧
      st.stims_hoc = guardBlocks 0 bodies ∧
      st.save_recs = saveBlocks mtype 0 (prots.filter (fun np => dispatchable syn np.2)) := by
  unfold hocStimuliCreatorInit at h
  cases hp : processList mtype syn api initState prots with
  | error e => rw [hp] at h; exact absurd h (by simp)
  | ok st0 =>
    rw [hp] at h
    obtain ⟨bodies, hlen, hn, hstims, hsave⟩ := processList_decomp mtype syn api prots initState st0 hp
    cases h
    refine ⟨by rw [hn, hlen]; simp [initState], bodies, hlen, ?_, ?_⟩
    · rw [hstims]; rfl
    · rw [hsave]; rfl

/-- Witness for C1 at the concrete one-ramp mapping `c1Prots`. -/
theorem claim_C1_witness :
    c1St.n_stims = (c1Prots.filter (fun np => dispatchable true np.2)).length ∧
    ∃ bodies : List String,
      bodies.length = (c1Prots.filter (fun np => dispatchable true np.2)).length ∧
      c1St.stims_hoc = guardBlocks 0 bodies ∧
      c1St.save_recs = saveBlocks "cADpyr" 0 (c1Prots.filter (fun np => dispatchable true np.2)) :=
  claim_C1_dispatch_blocks c1Prots "cADpyr" true (-1) c1St rfl

theorem get_step_hoc_isOk (ms : Nat) (p : Prot) : isOkB (get_step_hoc ms p) = stepOk p := by
  cases hs : p.stimuli with
  | none => simp [get_step_hoc, stepOk, hs, isOkB]
  | some s =>
    cases hstep : s.step with
    | none => simp [get_step_hoc, stepOk, hs, hstep, isOkB]
    | some sd =>
      cases hl : stepDefsList sd with
      | nil => simp [get_step_hoc, stepOk, hs, hstep, hl, isOkB]
      | cons a l => simp [get_step_hoc, stepOk, hs, hstep, hl, isOkB]

theorem get_ramp_hoc_isOk (p : Prot) : isOkB (get_ramp_hoc p) = rampOk p := by
  cases hs : p.stimuli with
  | none => simp [get_ramp_hoc, rampOk, hs, isOkB]
  | some s =>
    cases hr : s.ramp with
    | none => simp [get_ramp_hoc, rampOk, hs, hr, isOkB]
    | some rd => simp [get_ramp_hoc, rampOk, hs, hr, isOkB]

theorem get_vecstim_hoc_isOk (p : Prot) : isOkB (get_vecstim_hoc p) = vecOk p := by
  cases hs : p.stimuli with
  | none => simp [get_vecstim_hoc, vecOk, hs, isOkB]
  | some s =>
    cases h1 : s.syn_stop with
    | none => simp [get_vecstim_hoc, vecOk, hs, h1, isOkB]
    | some tf =>
      cases h2 : s.syn_start with
      | none => simp [get_vecstim_hoc, vecOk, hs, h1, h2, isOkB]
      | some t0 =>
        cases h3 : s.syn_stim_seed with
        | none => simp [get_vecstim_hoc, vecOk, hs, h1, h2, h3, isOkB]
        | some seed => simp [get_vecstim_hoc, vecOk, hs, h1, h2, h3, isOkB]

theorem get_netstim_hoc_isOk (p : Prot) : isOkB (get_netstim_hoc p) = netOk p := by
  cases hs : p.stimuli with
  | none => simp [get_netstim_hoc, netOk, hs, isOkB]
  | some s =>
    cases h1 : s.syn_stop with
    | none => simp [get_netstim_hoc, netOk, hs, h1, isOkB]
    | some tf =>
      cases h2 : s.syn_start with
      | none => simp [get_netstim_hoc, netOk, hs, h1, h2, isOkB]
      | some t0 =>
        cases h3 : s.syn_interval with
        | none => simp [get_netstim_hoc, netOk, hs, h1, h2, h3, isOkB]
        | some itv =>
          cases h4 : s.syn_nmb_of_spikes with
          | none => simp [get_netstim_hoc, netOk, hs, h1, h2, h3, h4, isOkB]
          | some nsp =>
            cases h5 : s.syn_noise with
            | none => simp [get_netstim_hoc, netOk, hs, h1, h2, h3, h4, h5, isOkB]
            | some noise => simp [get_netstim_hoc, netOk, hs, h1, h2, h3, h4, h5, isOkB]

theorem get_step_hoc_max (ms : Nat) (p : Prot) (bm : String × Nat)
    (h : get_step_hoc ms p = Except.ok bm) : bm.snd = Nat.max ms (stepCount p) := by
  cases hs : p.stimuli with
  | none => simp only [get_step_hoc, hs] at h; exact absurd h (by simp)
  | some s =>
    cases hstep : s.step with
    | none => simp only [get_step_hoc, hs, hstep] at h; exact absurd h (by simp)
    | some sd =>
      cases hl : stepDefsList sd with
      | nil => simp only [get_step_hoc, hs, hstep, hl] at h; exact absurd h (by simp)
      | cons a l =>
        simp only [get_step_hoc, hs, hstep, hl, Except.ok.injEq] at h
        rw [← h]
        simp [stepCount, hs, hstep, hl]

theorem process_prot_max (mtype : String) (syn : Bool) (api : Int) (st st1 : HocState)
    (np : String × Prot) (h : process_prot mtype syn api st np = Except.ok st1) :
    st1.max_steps = if np.2.type == some "StepProtocol" then Nat.max st.max_steps (stepCount np.2) else st.max_steps := by
  have hext := extra_step_fields api st np.2
  unfold process_prot at h
  by_cases h1 : np.2.type == some "StepProtocol"
  · simp only [h1, if_true] at h ⊢
    cases hg : get_step_hoc (extra_step api st np.2).max_steps np.2 with
    | error e =>
      rw [show (match np.2.extra_recordings with
        | some recs => add_extra_recs api st recs
        | none => st) = extra_step api st np.2 from rfl] at h
      rw [hg] at h; exact absurd h (by simp)
    | ok bm =>
      rw [show (match np.2.extra_recordings with
        | some recs => add_extra_recs api st recs
        | none => st) = extra_step api st np.2 from rfl] at h
      rw [hg] at h
      cases h
      have hmax := get_step_hoc_max _ _ _ hg
      rw [hext.2.1] at hmax
      exact hmax
  · simp only [h1, Bool.false_eq_true, if_false] at h ⊢
    by_cases h2 : np.2.type == some "RampProtocol"
    · simp only [h2, if_true] at h
      cases hg : get_ramp_hoc np.2 with
      | error e =>
        rw [show (match np.2.extra_recordings with
          | some recs => add_extra_recs api st recs
          | none => st) = extra_step api st np.2 from rfl] at h
        rw [hg] at h; exact absurd h (by simp)
      | ok body =>
        rw [show (match np.2.extra_recordings with
          | some recs => add_extra_recs api st recs
          | none => st) = extra_step api st np.2 from rfl] at h
        rw [hg] at h
        cases h
        exact hext.2.1
    · simp only [h2, Bool.false_eq_true, if_false] at h
      by_cases h3 : np.2.type == some "Vecstim" && syn
      · simp only [h3, if_true] at h
        cases hg : get_vecstim_hoc np.2 with
        | error e =>
          rw [show (match np.2.extra_recordings with
            | some recs => add_extra_recs api st recs
            | none => st) = extra_step api st np.2 from rfl] at h
          rw [hg] at h; exact absurd h (by simp)
        | ok body =>
          rw [show (match np.2.extra_recordings with
            | some recs => add_extra_recs api st recs
            | none => st) = extra_step api st np.2 from rfl] at h
          rw [hg] at h
          cases h
          exact hext.2.1
      · simp only [h3, Bool.false_eq_true, if_false] at h
        by_cases h4 : np.2.type == some "Netstim" && syn
        · simp only [h4, if_true] at h
          cases hg : get_netstim_hoc np.2 with
          | error e =>
            rw [show (match np.2.extra_recordings with
              | some recs => add_extra_recs api st recs
              | none => st) = extra_step api st np.2 from rfl] at h
            rw [hg] at h; exact absurd h (by simp)
          | ok body =>
            rw [show (match np.2.extra_recordings with
              | some recs => add_extra_recs api st recs
              | none => st) = extra_step api st np.2 from rfl] at h
            rw [hg] at h
            cases h
            exact hext.2.1
        · simp only [h4, Bool.false_eq_true, if_false] at h
          cases h
          exact hext.2.1

theorem processList_max (mtype : String) (syn : Bool) (api : Int) :
    ∀ (prots : List (String × Prot)) (st stF : HocState),
      processList mtype syn api st prots = Except.ok stF →
      stF.max_steps = maxStepsFold st.max_steps prots := by
  intro prots
  induction prots with
  | nil => intro st stF h; simp only [processList] at h; cases h; rfl
  | cons np rest ih =>
    intro st stF h
    simp only [processList] at h
    cases hp : process_prot mtype syn api st np with
    | error e => rw [hp] at h; exact absurd h (by simp)
    | ok st1 =>
      rw [hp] at h
      have hm := process_prot_max mtype syn api st st1 np hp
      rw [maxStepsFold, ← hm]
      exact ih st1 stF h

theorem maxStepsFold_nostep : ∀ (prots : List (String × Prot)) (m : Nat),
    (∀ np ∈ prots, ¬ np.2.type = some "StepProtocol") → maxStepsFold m prots = m := by
  intro prots
  induction prots with
  | nil => intro m _; rfl
  | cons np rest ih =>
    intro m hall
    rw [maxStepsFold, if_neg (by simp [hall np (List.mem_cons_self np rest)])]
    exact ih m (fun np2 hm => hall np2 (List.mem_cons_of_mem _ hm))

/-- C2 (amended): after a successful construction, `max_steps` equals the
running maximum of the normalised step-entry counts over the mapping's
`StepProtocol` entries, and it equals 0 — not 1 — when the mapping contains no
`StepProtocol`; the floor of 1 is applied only downstream, by `get_reset_step`
and `get_init_step`. -/
theorem claim_C2_max_steps (prots : List (String × Prot)) (mtype : String) (syn : Bool)
    (api : Int) (st : HocState)
    (h : hocStimuliCreatorInit prots mtype syn api = Except.ok st) :
    st.max_steps = maxStepsFold 0 prots ∧
    ((∀ np ∈ prots, ¬ np.2.type = some "StepProtocol") → st.max_steps = 0) := by
  unfold hocStimuliCreatorInit at h
  cases hp : processList mtype syn api initState prots with
  | error e => rw [hp] at h; exact absurd h (by simp)
  | ok st0 =>
    rw [hp] at h
    cases h
    have hm := processList_max mtype syn api prots initState st0 hp
    refine ⟨hm, fun hall => ?_⟩
    exact hm.trans (maxStepsFold_nostep prots 0 hall)

/-- C2 counterexample: for the empty mapping (which has no `StepProtocol`),
the constructed `max_steps` is 0, not 1 as the claim states. -/
theorem claim_C2_counterexample :
    ¬ ((hocStimuliCreatorInit [] "mtype" false (-1)).map (fun st => st.max_steps) = Except.ok 1) := by
  intro h
  have h0 : (hocStimuliCreatorInit [] "mtype" false (-1)).map (fun st => st.max_steps) = Except.ok 0 := rfl
  rw [h0] at h
  exact absurd (Except.ok.inj h) (by decide)

set_option maxHeartbeats 2000000 in
theorem c8St_eq : hocStimuliCreatorInit c8Prots "L5TPC" false (-1) = Except.ok c8St := rfl

/-- Witness for the amended C2 at the concrete two-step-protocol mapping
`c8Prots`. -/
theorem claim_C2_witness :
    c8St.max_steps = maxStepsFold 0 c8Prots ∧
    ((∀ np ∈ c8Prots, ¬ np.2.type = some "StepProtocol") → c8St.max_steps = 0) :=
  claim_C2_max_steps c8Prots "L5TPC" false (-1) c8St c8St_eq

theorem get_reset_step_join (m : Nat) :
    get_reset_step m = String.join ((List.range (Nat.max m 1)).map reset_step_block) := by
  unfold get_reset_step
  rw [foldl_append_join]
  exact String.empty_append _

theorem get_init_step_join (m : Nat) :
    get_init_step m = String.join ((List.range (Nat.max m 1)).map init_step_block) := by
  unfold get_init_step
  rw [foldl_append_join]
  exact String.empty_append _

theorem reset_init_shape (prots : List (String × Prot)) (mtype : String) (syn : Bool)
    (api : Int) (st : HocState)
    (h : hocStimuliCreatorInit prots mtype syn api = Except.ok st) :
    st.reset_step_stimuli = String.join ((List.range (Nat.max (maxStepsFold 0 prots) 1)).map reset_step_block) ∧
    st.init_step_stimuli = String.join ((List.range (Nat.max (maxStepsFold 0 prots) 1)).map init_step_block) := by
  unfold hocStimuliCreatorInit at h
  cases hp : processList mtype syn api initState prots with
  | error e => rw [hp] at h; exact absurd h (by simp)
  | ok st0 =>
    rw [hp] at h
    cases h
    have hm := processList_max mtype syn api prots initState st0 hp
    constructor
    · show get_reset_step st0.max_steps = _
      rw [get_reset_step_join, hm]
      rfl
    · show get_init_step st0.max_steps = _
      rw [get_init_step_join, hm]
      rfl

/-- C8: for every successfully constructed mapping, the step-reset fragment is
the concatenation of exactly `max(max_steps, 1)` indexed reset blocks (indices
`0, ..., max(max_steps, 1) - 1`) and the step-init fragment of exactly the
same number of indexed `objref` declarations, where `max_steps` is the running
maximum of step-entry counts; in particular for the mapping `c8Prots` with one
two-step and one one-step `StepProtocol`, both fragments contain exactly the 2
indexed blocks. -/
theorem claim_C8_reset_init (prots : List (String × Prot)) (mtype : String) (syn : Bool)
    (api : Int) (st : HocState)
    (h : hocStimuliCreatorInit prots mtype syn api = Except.ok st) :
    (st.reset_step_stimuli = String.join ((List.range (Nat.max (maxStepsFold 0 prots) 1)).map reset_step_block) ∧
     st.init_step_stimuli = String.join ((List.range (Nat.max (maxStepsFold 0 prots) 1)).map init_step_block)) ∧
    c8St.reset_step_stimuli = reset_step_block 0 ++ reset_step_block 1 ∧
    c8St.init_step_stimuli = init_step_block 0 ++ init_step_block 1 := by
  have hc := reset_init_shape c8Prots "L5TPC" false (-1) c8St c8St_eq
  refine ⟨reset_init_shape prots mtype syn api st h, ?_, ?_⟩
  · rw [hc.1]; rfl
  · rw [hc.2]; rfl

/-- Witness for C8 at the concrete mapping `c8Prots`. -/
theorem claim_C8_witness :
    (c8St.reset_step_stimuli = String.join ((List.range (Nat.max (maxStepsFold 0 c8Prots) 1)).map reset_step_block) ∧
     c8St.init_step_stimuli = String.join ((List.range (Nat.max (maxStepsFold 0 c8Prots) 1)).map init_step_block)) ∧
    c8St.reset_step_stimuli = reset_step_block 0 ++ reset_step_block 1 ∧
    c8St.init_step_stimuli = init_step_block 0 ++ init_step_block 1 :=
  claim_C8_reset_init c8Prots "L5TPC" false (-1) c8St c8St_eq

/-- C3: for every `RampProtocol` stimuli payload, the generated ramp fragment
appends exactly six `(time, amplitude)` pairs, in template order
`(0, 0), (delay, 0), (delay, amp_start), (delay + duration, amp_end),
(delay + duration, 0), (total_duration, 0)` (the two middle times are emitted
as the hoc sum `delay + duration`); and with delay 10, duration 20, amp_start
0.1, amp_end 0.5, total_duration 50 the evaluated point sequence is exactly
`(0,0), (10,0), (10,0.1), (30,0.5), (30,0), (50,0)`. -/
theorem claim_C3_ramp_points :
    (∀ (prot : Prot) (s : Stimuli) (rd : RampDef), prot.stimuli = some s → s.ramp = some rd →
      get_ramp_hoc prot = Except.ok ((match s.holding with
        | some hold => holding_hoc hold
        | none => "")
        ++ ("\n            ramp_times = new Vector()\n            ramp_amps = new Vector()\n"
            ++ String.join ([("0.0", "0.0"),
                (rd.ramp_delay, "0.0"),
                (rd.ramp_delay, rd.ramp_amplitude_start),
                (rd.ramp_delay ++ " + " ++ rd.ramp_duration, rd.ramp_amplitude_end),
                (rd.ramp_delay ++ " + " ++ rd.ramp_duration, "0.0"),
                (rd.totduration, "0.0")].map ramp_append_hoc)
            ++ "        ")
        ++ ramp_play_hoc rd ++ ("tstop=" ++ rd.totduration))) ∧
    rampAppendedPoints 10 20 0.1 0.5 50 =
      [(0, 0), (10, 0), (10, 0.1), (30, 0.5), (30, 0), (50, 0)] := by
  constructor
  · intro prot s rd h1 h2
    simp [get_ramp_hoc, h1, h2, ramp_vectors_hoc, ramp_append_args]
  · norm_num [rampAppendedPoints]

/-- Witness for C3 at the concrete ramp protocol `demoRampProt`. -/
theorem claim_C3_witness :
    get_ramp_hoc demoRampProt = Except.ok (
      ("\n            ramp_times = new Vector()\n            ramp_amps = new Vector()\n"
        ++ String.join ([("0.0", "0.0"), ("10", "0.0"), ("10", "0.1"),
            ("10 + 20", "0.5"), ("10 + 20", "0.0"), ("50", "0.0")].map ramp_append_hoc)
        ++ "        ")
      ++ ramp_play_hoc demoRamp ++ ("tstop=" ++ "50")) :=
  claim_C3_ramp_points.1 demoRampProt { emptyStimuli with ramp := some demoRamp } demoRamp rfl rfl

/-- C5: a `Vecstim` or `Netstim` protocol processed with synapses disabled
falls through every dispatch branch: the loop step returns exactly the state
with only the extra-recordings registry merged, so the stimulus script,
recording-save script and stimulus count are unchanged. -/
theorem claim_C5_synapses_disabled (mtype : String) (api : Int) (st : HocState)
    (nm : String) (prot : Prot)
    (h : prot.type = some "Vecstim" ∨ prot.type = some "Netstim") :
    process_prot mtype false api st (nm, prot) = Except.ok (extra_step api st prot) ∧
    (extra_step api st prot).n_stims = st.n_stims ∧
    (extra_step api st prot).stims_hoc = st.stims_hoc ∧
    (extra_step api st prot).save_recs = st.save_recs := by
  have hext := extra_step_fields api st prot
  refine ⟨?_, hext.1, hext.2.2.1, hext.2.2.2⟩
  unfold process_prot
  rcases h with h | h <;> simp [h, extra_step]

/-- Witness for C5 at the concrete `Vecstim` protocol `c5Prot`, which also
declares an extra recording. -/
theorem claim_C5_witness :
    process_prot "cADpyr" false 0 initState ("SynProt", c5Prot) = Except.ok (extra_step 0 initState c5Prot) ∧
    (extra_step 0 initState c5Prot).n_stims = initState.n_stims ∧
    (extra_step 0 initState c5Prot).stims_hoc = initState.stims_hoc ∧
    (extra_step 0 initState c5Prot).save_recs = initState.save_recs :=
  claim_C5_synapses_disabled "cADpyr" 0 initState "SynProt" c5Prot (Or.inl rfl)

/-- C6: the synapse directive has the seven positional fields
`mode, start, stop, interval, spike count, noise, seed` in that fixed order;
`get_vecstim_hoc` emits `mode=0`, `interval=0`, `spike count=0`, `noise=0` and
the protocol's `syn_stim_seed`, while `get_netstim_hoc` emits `mode=1`, the
protocol's interval, spike count and noise, and the seed fixed to 0. -/
theorem claim_C6_syn_directives :
    (∀ (prot : Prot) (s : Stimuli) (t0 tf seed : String),
      prot.stimuli = some s → s.syn_start = some t0 → s.syn_stop = some tf →
      s.syn_stim_seed = some seed →
      get_vecstim_hoc prot = Except.ok ("tstop=" ++ tf ++ "\n"
        ++ ("cell.synapses.create_netcons " ++ "(0," ++ t0 ++ "," ++ tf ++ ",0,0,0," ++ seed ++ ")"))) ∧
    (∀ (prot : Prot) (s : Stimuli) (t0 tf itv nsp noise : String),
      prot.stimuli = some s → s.syn_start = some t0 → s.syn_stop = some tf →
      s.syn_interval = some itv → s.syn_nmb_of_spikes = some nsp → s.syn_noise = some noise →
      get_netstim_hoc prot = Except.ok ("tstop=" ++ tf ++ "\n"
        ++ ("cell.synapses.create_netcons" ++ "(1," ++ t0 ++ "," ++ tf ++ "," ++ itv ++ "," ++ nsp ++ "," ++ noise ++ ",0)"))) := by
  constructor
  · intro prot s t0 tf seed h1 h2 h3 h4
    simp [get_vecstim_hoc, h1, h2, h3, h4]
  · intro prot s t0 tf itv nsp noise h1 h2 h3 h4 h5 h6
    simp [get_netstim_hoc, h1, h2, h3, h4, h5, h6]

/-- Witness for C6 at the concrete protocols `c5Prot` and `c6NetProt`. -/
theorem claim_C6_witness :
    get_vecstim_hoc c5Prot = Except.ok ("tstop=" ++ "200" ++ "\n"
      ++ ("cell.synapses.create_netcons " ++ "(0," ++ "50" ++ "," ++ "200" ++ ",0,0,0," ++ "42" ++ ")")) ∧
    get_netstim_hoc c6NetProt = Except.ok ("tstop=" ++ "200" ++ "\n"
      ++ ("cell.synapses.create_netcons" ++ "(1," ++ "50" ++ "," ++ "200" ++ "," ++ "10" ++ "," ++ "5" ++ "," ++ "0.1" ++ ",0)")) :=
  ⟨claim_C6_syn_directives.1 c5Prot _ "50" "200" "42" rfl rfl rfl rfl,
   claim_C6_syn_directives.2 c6NetProt _ "50" "200" "10" "5" "0.1" rfl rfl rfl rfl rfl rfl⟩

/-- C7: the recording-save fragment writes the primary trace to
`hoc_recordings/{mtype}.{prot_name}.soma.v.dat` and, for each entry of the
protocol's `extra_recordings` list in order, one write to
`hoc_recordings/{mtype}.{prot_name}.{name}.{var}.dat`, in exactly the emitted
format. -/
theorem claim_C7_save_paths (mtype : String) (prot_name : String) (prot : Prot) (n : Nat)
    (recs : List ExtraRec) (h : prot.extra_recordings = some recs) :
    add_save_recordings_hoc mtype prot_name prot n =
      ("\n            if (stim_number == " ++ toString n ++ ") \x7b\n                sprint(fpath.s, \"hoc_recordings/" ++ mtype ++ "." ++ prot_name ++ ".soma.v.dat\")\n                timevoltage = new Matrix(time.size(), 2)\n                timevoltage.setcol(0, time)\n                timevoltage.setcol(1, voltage)\n                write_output_file(fpath, timevoltage)\n        ")
      ++ String.join (recs.map (fun r =>
           "\n                    sprint(fpath.s, \"hoc_recordings/" ++ mtype ++ "." ++ prot_name ++ "." ++ r.name ++ "." ++ r.var ++ ".dat\")\n                    timevoltage = new Matrix(time.size(), 2)\n                    timevoltage.setcol(0, time)\n                    timevoltage.setcol(1, " ++ r.name ++ ")\n                    write_output_file(fpath, timevoltage)\n                "))
      ++ "\n            \x7d\n        " := by
  simp only [add_save_recordings_hoc, h]
  rfl

/-- Witness for C7 at the concrete protocol `c5Prot` (one extra recording). -/
theorem claim_C7_witness :
    add_save_recordings_hoc "cADpyr" "SynProt" c5Prot 1 =
      ("\n            if (stim_number == " ++ toString 1 ++ ") \x7b\n                sprint(fpath.s, \"hoc_recordings/" ++ "cADpyr" ++ "." ++ "SynProt" ++ ".soma.v.dat\")\n                timevoltage = new Matrix(time.size(), 2)\n                timevoltage.setcol(0, time)\n                timevoltage.setcol(1, voltage)\n                write_output_file(fpath, timevoltage)\n        ")
      ++ String.join ([demoRec].map (fun r =>
           "\n                    sprint(fpath.s, \"hoc_recordings/" ++ "cADpyr" ++ "." ++ "SynProt" ++ "." ++ r.name ++ "." ++ r.var ++ ".dat\")\n                    timevoltage = new Matrix(time.size(), 2)\n                    timevoltage.setcol(0, time)\n                    timevoltage.setcol(1, " ++ r.name ++ ")\n                    write_output_file(fpath, timevoltage)\n                "))
      ++ "\n            \x7d\n        " :=
  claim_C7_save_paths "cADpyr" "SynProt" c5Prot 1 [demoRec] rfl

theorem process_prot_isOk (mtype : String) (syn : Bool) (api : Int) (st : HocState)
    (np : String × Prot) :
    isOkB (process_prot mtype syn api st np) = protOk syn np.2 := by
  unfold process_prot protOk
  by_cases h1 : np.2.type == some "StepProtocol"
  · simp only [h1, if_true]
    rw [show (match np.2.extra_recordings with
      | some recs => add_extra_recs api st recs
      | none => st) = extra_step api st np.2 from rfl]
    rw [← get_step_hoc_isOk (extra_step api st np.2).max_steps np.2]
    cases get_step_hoc (extra_step api st np.2).max_steps np.2 with
    | error e => rfl
    | ok bm => rfl
  · simp only [h1, Bool.false_eq_true, if_false]
    by_cases h2 : np.2.type == some "RampProtocol"
    · simp only [h2, if_true]
      rw [← get_ramp_hoc_isOk np.2]
      cases get_ramp_hoc np.2 with
      | error e => rfl
      | ok body => rfl
    · simp only [h2, Bool.false_eq_true, if_false]
      by_cases h3 : np.2.type == some "Vecstim" && syn
      · simp only [h3, if_true]
        rw [← get_vecstim_hoc_isOk np.2]
        cases get_vecstim_hoc np.2 with
        | error e => rfl
        | ok body => rfl
      · simp only [h3, Bool.false_eq_true, if_false]
        by_cases h4 : np.2.type == some "Netstim" && syn
        · simp only [h4, if_true]
          rw [← get_netstim_hoc_isOk np.2]
          cases get_netstim_hoc np.2 with
          | error e => rfl
          | ok body => rfl
        · simp only [h4, Bool.false_eq_true, if_false]
          rfl

theorem processList_isOk (mtype : String) (syn : Bool) (api : Int) :
    ∀ (prots : List (String × Prot)) (st : HocState),
      isOkB (processList mtype syn api st prots) = prots.all (fun np => protOk syn np.2) := by
  intro prots
  induction prots with
  | nil => intro st; rfl
  | cons np rest ih =>
    intro st
    simp only [processList, List.all_cons]
    have hpo := process_prot_isOk mtype syn api st np
    cases hp : process_prot mtype syn api st np with
    | error e =>
      rw [hp] at hpo
      have hpt : protOk syn np.2 = false := by rw [← hpo]; rfl
      rw [hpt, Bool.false_and]
      rfl
    | ok st1 =>
      rw [hp] at hpo
      have hpt : protOk syn np.2 = true := by rw [← hpo]; rfl
      rw [hpt, Bool.true_and]
      exact ih st1

theorem hocInit_isOk (prots : List (String × Prot)) (mtype : String) (syn : Bool) (api : Int) :
    isOkB (hocStimuliCreatorInit prots mtype syn api) = prots.all (fun np => protOk syn np.2) := by
  unfold hocStimuliCreatorInit
  rw [← processList_isOk mtype syn api prots initState]
  cases processList mtype syn api initState prots with
  | error e => rfl
  | ok st => rfl

theorem processList_ok_of_all (mtype : String) (syn : Bool) (api : Int)
    (prots : List (String × Prot)) (st : HocState)
    (hall : ∀ np ∈ prots, protOk syn np.2 = true) :
    ∃ st1, processList mtype syn api st prots = Except.ok st1 := by
  have hok := processList_isOk mtype syn api prots st
  rw [List.all_eq_true.mpr hall] at hok
  cases hv : processList mtype syn api st prots with
  | error e => rw [hv] at hok; exact absurd hok (by simp [isOkB])
  | ok st1 => exact ⟨st1, rfl⟩

theorem process_prot_error_of_not (mtype : String) (syn : Bool) (api : Int) (st : HocState)
    (np : String × Prot) (h : protOk syn np.2 = false) :
    ∃ e, process_prot mtype syn api st np = Except.error e := by
  have hpo := process_prot_isOk mtype syn api st np
  rw [h] at hpo
  cases hv : process_prot mtype syn api st np with
  | error e => exact ⟨e, rfl⟩
  | ok st1 => rw [hv] at hpo; exact absurd hpo (by simp [isOkB])

theorem processList_append (mtype : String) (syn : Bool) (api : Int) :
    ∀ (xs ys : List (String × Prot)) (st : HocState),
      processList mtype syn api st (xs ++ ys) =
        match processList mtype syn api st xs with
        | Except.error e => Except.error e
        | Except.ok st1 => processList mtype syn api st1 ys := by
  intro xs
  induction xs with
  | nil => intro ys st; rfl
  | cons np rest ih =>
    intro ys st
    simp only [List.cons_append, processList]
    cases process_prot mtype syn api st np with
    | error e => rfl
    | ok st1 => exact ih ys st1

/-- C9: construction succeeds exactly when every protocol's declared type has
the `stimuli` sub-fields it requires (`protOk`, with no requirement on
non-dispatchable protocols); the lookup failure of the first offending
protocol is surfaced immediately and unchanged no matter what follows it in
the mapping (no ahead-of-time validation); and a protocol whose `type` is
missing or unrecognised never causes an error. -/
theorem claim_C9_error_semantics (mtype : String) (syn : Bool) (api : Int) :
    (∀ prots : List (String × Prot),
      isOkB (hocStimuliCreatorInit prots mtype syn api) = prots.all (fun np => protOk syn np.2)) ∧
    (∀ (l1 : List (String × Prot)) (nm : String) (p : Prot) (l2 : List (String × Prot)),
      (∀ np ∈ l1, protOk syn np.2 = true) → protOk syn p = false →
      hocStimuliCreatorInit (l1 ++ (nm, p) :: l2) mtype syn api =
        hocStimuliCreatorInit (l1 ++ [(nm, p)]) mtype syn api ∧
      isOkB (hocStimuliCreatorInit (l1 ++ [(nm, p)]) mtype syn api) = false) ∧
    (∀ p : Prot, p.type ≠ some "StepProtocol" → p.type ≠ some "RampProtocol" →
      p.type ≠ some "Vecstim" → p.type ≠ some "Netstim" → protOk syn p = true) := by
  refine ⟨fun prots => hocInit_isOk prots mtype syn api, ?_, ?_⟩
  · intro l1 nm p l2 hall hbad
    obtain ⟨st1, hst1⟩ := processList_ok_of_all mtype syn api l1 initState hall
    obtain ⟨e, he⟩ := process_prot_error_of_not mtype syn api st1 (nm, p) hbad
    have h1 : processList mtype syn api initState (l1 ++ (nm, p) :: l2) = Except.error e := by
      rw [processList_append, hst1]
      simp only [processList, he]
    have h2 : processList mtype syn api initState (l1 ++ [(nm, p)]) = Except.error e := by
      rw [processList_append, hst1]
      simp only [processList, he]
    constructor
    · unfold hocStimuliCreatorInit
      rw [h1, h2]
    · unfold hocStimuliCreatorInit
      rw [h2]
      rfl
  · intro p h1 h2 h3 h4
    simp [protOk, h1, h2, h3, h4]

/-- Witness for C9: a well-formed ramp protocol followed by a `StepProtocol`
lacking its `step` key makes construction fail identically with or without a
later protocol, and the success equivalence holds on the concrete mapping. -/
theorem claim_C9_witness :
    (hocStimuliCreatorInit ([("Ramp", demoRampProt)] ++ ("Bad", c9BadProt) :: [("Later", demoRampProt)]) "m" true (-1) =
       hocStimuliCreatorInit ([("Ramp", demoRampProt)] ++ [("Bad", c9BadProt)]) "m" true (-1) ∧
     isOkB (hocStimuliCreatorInit ([("Ramp", demoRampProt)] ++ [("Bad", c9BadProt)]) "m" true (-1)) = false) ∧
    isOkB (hocStimuliCreatorInit [("Ramp", demoRampProt)] "m" true (-1)) =
      [("Ramp", demoRampProt)].all (fun np => protOk true np.2) :=
  ⟨(claim_C9_error_semantics "m" true (-1)).2.1 [("Ramp", demoRampProt)] "Bad" c9BadProt
      [("Later", demoRampProt)] (by decide) (by decide),
   (claim_C9_error_semantics "m" true (-1)).1 [("Ramp", demoRampProt)]⟩

theorem pySplitCS_cons2 (c1 c2 : Char) (rest : List Char) :
    pySplitCS (c1 :: c2 :: rest) =
      if c1 == ',' && c2 == ' ' then [] :: pySplitCS rest
      else
        match pySplitCS (c2 :: rest) with
        | [] => [[c1]]
        | x :: xs => (c1 :: x) :: xs := rfl

theorem sepFree_cons2 (c1 c2 : Char) (rest : List Char) :
    sepFree (c1 :: c2 :: rest) = (!(c1 == ',' && c2 == ' ') && sepFree (c2 :: rest)) := rfl

theorem pySplitCS_sep (t : List Char) : pySplitCS (',' :: ' ' :: t) = [] :: pySplitCS t := by
  rw [pySplitCS_cons2]
  rfl

theorem pySplitCS_sepFree_append (t : List Char) :
    ∀ (n : List Char), sepFree n = true → pySplitCS (n ++ ',' :: ' ' :: t) = n :: pySplitCS t := by
  intro n
  induction n with
  | nil => intro _; exact pySplitCS_sep t
  | cons c n2 ih =>
    intro hsf
    cases n2 with
    | nil =>
      simp only [List.cons_append, List.nil_append]
      rw [pySplitCS_cons2]
      simp only [show ((',' : Char) == ' ') = false from rfl, Bool.and_false, Bool.false_eq_true,
        if_false]
      rw [pySplitCS_sep]
    | cons c2 n3 =>
      rw [sepFree_cons2, Bool.and_eq_true] at hsf
      obtain ⟨ha, hb⟩ := hsf
      rw [Bool.not_eq_eq_eq_not, Bool.not_true] at ha
      simp only [List.cons_append]
      rw [pySplitCS_cons2]
      simp only [ha, Bool.false_eq_true, if_false]
      rw [show c2 :: (n3 ++ ',' :: ' ' :: t) = (c2 :: n3) ++ ',' :: ' ' :: t from rfl]
      rw [ih hb]

theorem pySplitCS_sepFree_self : ∀ (n : List Char), sepFree n = true → pySplitCS n = [n] := by
  intro n
  induction n with
  | nil => intro _; rfl
  | cons c n2 ih =>
    intro hsf
    cases n2 with
    | nil => rfl
    | cons c2 n3 =>
      rw [sepFree_cons2, Bool.and_eq_true] at hsf
      obtain ⟨ha, hb⟩ := hsf
      rw [Bool.not_eq_eq_eq_not, Bool.not_true] at ha
      rw [pySplitCS_cons2]
      simp only [ha, Bool.false_eq_true, if_false]
      rw [ih hb]

theorem pySplitCS_namesFlat : ∀ (names : List (List Char)), (∀ n ∈ names, sepFree n = true) →
    ∀ (m : List Char), sepFree m = true → pySplitCS (m ++ namesFlat names) = m :: names := by
  intro names
  induction names with
  | nil =>
    intro _ m hm
    rw [namesFlat, List.append_nil]
    exact pySplitCS_sepFree_self m hm
  | cons n rest ih =>
    intro hall m hm
    rw [namesFlat]
    rw [pySplitCS_sepFree_append (n ++ namesFlat rest) m hm]
    rw [ih (fun x hx => hall x (List.mem_cons_of_mem _ hx)) n (hall n (List.mem_cons_self _ _))]

theorem strJoin_append : ∀ (a b : List String), String.join (a ++ b) = String.join a ++ String.join b := by
  intro a
  induction a with
  | nil => intro b; rw [List.nil_append]; exact (String.empty_append _).symm
  | cons x xs ih => intro b; simp only [List.cons_append, strJoin_cons, ih, String.append_assoc]

theorem namesFlatStr_data : ∀ (names : List String),
    (namesFlatStr names).data = namesFlat (names.map String.data) := by
  intro names
  induction names with
  | nil => rfl
  | cons n rest ih =>
    simp only [namesFlatStr, List.map, strJoin_cons, String.data_append]
    rw [show String.join (rest.map (fun x => ", " ++ x)) = namesFlatStr rest from rfl, ih]
    simp [namesFlat, String.data_append]

theorem namesFlatStr_snoc (names : List String) (n : String) :
    namesFlatStr (names ++ [n]) = namesFlatStr names ++ (", " ++ n) := by
  unfold namesFlatStr
  rw [List.map_append, strJoin_append]
  rfl

theorem add_extra_rec_skip (api : Int) (st : HocState) (r : ExtraRec)
    (h : (pySplitCS st.extra_recs_vars.data).contains r.name.data = true) :
    add_extra_rec api st r = st := by
  unfold add_extra_rec
  exact if_pos h

theorem add_extra_rec_add (api : Int) (st : HocState) (r : ExtraRec)
    (h : (pySplitCS st.extra_recs_vars.data).contains r.name.data = false) :
    add_extra_rec api st r =
      { st with extra_recs_vars := st.extra_recs_vars ++ (", " ++ r.name),
                extra_recs := st.extra_recs ++ extra_rec_fragment api r } := by
  unfold add_extra_rec
  exact if_neg (by simpa using h)

theorem varsShape_add (api : Int) (st : HocState) (r : ExtraRec)
    (h : varsShape st.extra_recs_vars) :
    varsShape (add_extra_rec api st r).extra_recs_vars := by
  unfold add_extra_rec
  split
  · exact h
  · right
    rcases h with h | ⟨t, ht⟩
    · exact ⟨r.name.data, by simp [String.data_append, h]⟩
    · exact ⟨t ++ (", " ++ r.name).data, by simp [String.data_append, ht]⟩

theorem varsShape_addList (api : Int) : ∀ (recs : List ExtraRec) (st : HocState),
    varsShape st.extra_recs_vars → varsShape (add_extra_recs api st recs).extra_recs_vars := by
  intro recs
  induction recs with
  | nil => intro st h; exact h
  | cons r rs ih =>
    intro st h
    exact ih (add_extra_rec api st r) (varsShape_add api st r h)

theorem varsShape_extra_step (api : Int) (st : HocState) (p : Prot)
    (h : varsShape st.extra_recs_vars) :
    varsShape (extra_step api st p).extra_recs_vars := by
  unfold extra_step
  split
  · exact varsShape_addList api _ st h
  · exact h

theorem process_prot_extra_fields (mtype : String) (syn : Bool) (api : Int) (st st1 : HocState)
    (np : String × Prot) (h : process_prot mtype syn api st np = Except.ok st1) :
    st1.extra_recs_vars = (extra_step api st np.2).extra_recs_vars ∧
    st1.extra_recs = (extra_step api st np.2).extra_recs := by
  have hs := process_prot_ok_shape mtype syn api st st1 np h
  by_cases hd : dispatchable syn np.2
  · obtain ⟨b, nm, he⟩ := hs.2 hd
    rw [he]
    exact ⟨rfl, rfl⟩
  · rw [hs.1 (by simp [hd])]
    exact ⟨rfl, rfl⟩

theorem processList_varsShape (mtype : String) (syn : Bool) (api : Int) :
    ∀ (prots : List (String × Prot)) (st stF : HocState),
      processList mtype syn api st prots = Except.ok stF →
      varsShape st.extra_recs_vars → varsShape stF.extra_recs_vars := by
  intro prots
  induction prots with
  | nil => intro st stF h hv; simp only [processList] at h; cases h; exact hv
  | cons np rest ih =>
    intro st stF h hv
    simp only [processList] at h
    cases hp : process_prot mtype syn api st np with
    | error e => rw [hp] at h; exact absurd h (by simp)
    | ok st1 =>
      rw [hp] at h
      have hx := process_prot_extra_fields mtype syn api st st1 np hp
      refine ih st1 stF h ?_
      rw [hx.1]
      exact varsShape_extra_step api st np.2 hv

theorem hocInit_varsShape (prots : List (String × Prot)) (mtype : String) (syn : Bool)
    (api : Int) (st : HocState)
    (h : hocStimuliCreatorInit prots mtype syn api = Except.ok st) :
    varsShape st.extra_recs_vars := by
  unfold hocStimuliCreatorInit at h
  cases hp : processList mtype syn api initState prots with
  | error e => rw [hp] at h; exact absurd h (by simp)
  | ok st0 =>
    rw [hp] at h
    cases h
    exact processList_varsShape mtype syn api prots initState st0 hp (Or.inl rfl)

theorem contains_empty_of_shape (s : String) (h : varsShape s) :
    (pySplitCS s.data).contains ([] : List Char) = true := by
  rcases h with h | ⟨t, ht⟩
  · rw [h]; rfl
  · rw [ht, pySplitCS_sep]
    simp [List.contains_cons]

/-- C10: the duplicate check of `add_extra_recs` tests membership of the
candidate name in the `", "`-split of the accumulated variable string, not
equality with previously registered names: (i) whenever the name occurs among
the split components the whole state is left unchanged; (ii) on any state
whose variable string is empty or `", "`-prefixed — (iii) which holds for
every constructed state — an extra recording with the empty name is skipped
even on its first occurrence; and (iv) concretely, a recording named `b` is
skipped right after registering one named `a, b`, although no recording named
`b` was registered, and an empty-named recording is skipped at first sight. -/
theorem claim_C10_split_membership :
    (∀ (api : Int) (st : HocState) (r : ExtraRec),
      (pySplitCS st.extra_recs_vars.data).contains r.name.data = true →
      add_extra_rec api st r = st) ∧
    (∀ (api : Int) (st : HocState) (r : ExtraRec),
      varsShape st.extra_recs_vars → r.name = "" → add_extra_rec api st r = st) ∧
    (∀ (prots : List (String × Prot)) (mtype : String) (syn : Bool) (api : Int) (st : HocState),
      hocStimuliCreatorInit prots mtype syn api = Except.ok st → varsShape st.extra_recs_vars) ∧
    (add_extra_rec 0 (add_extra_rec 0 initState recAB) recB = add_extra_rec 0 initState recAB ∧
     add_extra_rec 0 initState recEmpty = initState) := by
  refine ⟨add_extra_rec_skip, ?_, hocInit_varsShape, by decide, by decide⟩
  intro api st r hshape hname
  refine add_extra_rec_skip api st r ?_
  rw [hname]
  exact contains_empty_of_shape st.extra_recs_vars hshape

/-- Witness for C10: the empty-named recording is skipped on the freshly
initialised state. -/
theorem claim_C10_witness :
    add_extra_rec 0 initState recEmpty = initState :=
  claim_C10_split_membership.2.1 0 initState recEmpty (Or.inl rfl) rfl

theorem split_contains_iff (names : List String) (hall : ∀ n ∈ names, sepFree n.data = true)
    (r : String) (hr : r ≠ "") :
    ((pySplitCS (namesFlatStr names).data).contains r.data = true) ↔ r ∈ names := by
  rw [namesFlatStr_data]
  have h1 : pySplitCS (namesFlat (names.map String.data)) = [] :: names.map String.data := by
    have h2 := pySplitCS_namesFlat (names.map String.data)
      (by intro n hn
          obtain ⟨x, hx, hxx⟩ := List.mem_map.mp hn
          rw [← hxx]
          exact hall x hx)
      [] rfl
    simpa using h2
  rw [h1]
  constructor
  · intro h
    have hm : r.data ∈ ([] :: names.map String.data) := by simpa using h
    rw [List.mem_cons] at hm
    rcases hm with hm | hm
    · exact absurd (String.ext hm) hr
    · obtain ⟨x, hx, hxx⟩ := List.mem_map.mp hm
      exact (String.ext hxx) ▸ hx
  · intro h
    have hm : r.data ∈ ([] :: names.map String.data) :=
      List.mem_cons_of_mem _ (List.mem_map.mpr ⟨r, h, rfl⟩)
    simpa using hm

theorem add_extra_recs_dedup (api : Int) : ∀ (recs : List ExtraRec) (st : HocState) (names : List String),
    (∀ n ∈ names, sepFree n.data = true) →
    (∀ r ∈ recs, sepFree r.name.data = true ∧ r.name ≠ "") →
    st.extra_recs_vars = namesFlatStr names →
    (add_extra_recs api st recs).extra_recs_vars
        = namesFlatStr (names ++ (specDedup names recs).map (fun r => r.name)) ∧
    (add_extra_recs api st recs).extra_recs
        = st.extra_recs ++ String.join ((specDedup names recs).map (extra_rec_fragment api)) := by
  intro recs
  induction recs with
  | nil =>
    intro st names h1 h2 hv
    constructor
    · rw [show add_extra_recs api st [] = st from rfl, hv, specDedup]
      simp
    · rw [show add_extra_recs api st [] = st from rfl, specDedup]
      simp [String.join]
  | cons r rs ih =>
    intro st names h1 h2 hv
    have hr := h2 r (List.mem_cons_self _ _)
    have hcons : add_extra_recs api st (r :: rs) = add_extra_recs api (add_extra_rec api st r) rs := rfl
    by_cases hc : r.name ∈ names
    · have hmem : (pySplitCS st.extra_recs_vars.data).contains r.name.data = true := by
        rw [hv]
        exact (split_contains_iff names h1 r.name hr.2).mpr hc
      have hskip := add_extra_rec_skip api st r hmem
      rw [hcons, hskip, show specDedup names (r :: rs) = specDedup names rs from by
        simp [specDedup, hc]]
      exact ih st names h1 (fun x hx => h2 x (List.mem_cons_of_mem _ hx)) hv
    · have hmem : (pySplitCS st.extra_recs_vars.data).contains r.name.data = false := by
        rw [hv]
        cases hb : (pySplitCS (namesFlatStr names).data).contains r.name.data
        · rfl
        · exact absurd ((split_contains_iff names h1 r.name hr.2).mp hb) hc
      have hadd := add_extra_rec_add api st r hmem
      have hv2 : (add_extra_rec api st r).extra_recs_vars = namesFlatStr (names ++ [r.name]) := by
        rw [hadd, namesFlatStr_snoc]
        show st.extra_recs_vars ++ (", " ++ r.name) = _
        rw [hv]
      have hx2 : (add_extra_rec api st r).extra_recs = st.extra_recs ++ extra_rec_fragment api r := by
        rw [hadd]
      have h1b : ∀ n ∈ names ++ [r.name], sepFree n.data = true := by
        intro n hn
        rcases List.mem_append.mp hn with hn | hn
        · exact h1 n hn
        · rw [List.mem_singleton.mp hn]
          exact hr.1
      obtain ⟨iha, ihb⟩ := ih (add_extra_rec api st r) (names ++ [r.name]) h1b
        (fun x hx => h2 x (List.mem_cons_of_mem _ hx)) hv2
      have hded : specDedup names (r :: rs) = r :: specDedup (names ++ [r.name]) rs := by
        simp [specDedup, hc]
      constructor
      · rw [hcons, iha, hded]
        rw [List.map_cons, List.append_assoc, List.singleton_append]
      · rw [hcons, ihb, hx2, hded]
        rw [List.map_cons, strJoin_cons, ← String.append_assoc]

theorem specDedup_append : ∀ (xs ys : List ExtraRec) (names : List String),
    specDedup names (xs ++ ys) =
      specDedup names xs ++ specDedup (names ++ (specDedup names xs).map (fun r => r.name)) ys := by
  intro xs
  induction xs with
  | nil => intro ys names; simp [specDedup]
  | cons r rs ih =>
    intro ys names
    rw [List.cons_append]
    by_cases hc : r.name ∈ names
    · rw [specDedup, if_pos hc]
      rw [show specDedup names (r :: rs) = specDedup names rs from by rw [specDedup, if_pos hc]]
      exact ih ys names
    · rw [specDedup, if_neg hc]
      rw [show specDedup names (r :: rs) = r :: specDedup (names ++ [r.name]) rs from by
        rw [specDedup, if_neg hc]]
      rw [ih ys (names ++ [r.name])]
      rw [List.cons_append, List.map_cons, List.append_assoc, List.singleton_append]

theorem specDedup_mem : ∀ (recs : List ExtraRec) (names : List String) (x : ExtraRec),
    x ∈ specDedup names recs → x ∈ recs := by
  intro recs
  induction recs with
  | nil => intro names x h; simp [specDedup] at h
  | cons r rs ih =>
    intro names x h
    by_cases hc : r.name ∈ names
    · rw [specDedup, if_pos hc] at h
      exact List.mem_cons_of_mem _ (ih names x h)
    · rw [specDedup, if_neg hc] at h
      rcases List.mem_cons.mp h with h | h
      · rw [h]; exact List.mem_cons_self _ _
      · exact List.mem_cons_of_mem _ (ih _ x h)

theorem extra_step_as_add (api : Int) (st : HocState) (p : Prot) :
    extra_step api st p = add_extra_recs api st (protRecs p) := by
  unfold extra_step protRecs
  cases p.extra_recordings with
  | none => rfl
  | some recs => rfl

theorem processList_dedup (mtype : String) (syn : Bool) (api : Int) :
    ∀ (prots : List (String × Prot)) (st : HocState) (names : List String) (stF : HocState),
      (∀ n ∈ names, sepFree n.data = true) →
      (∀ r ∈ allExtraRecs prots, sepFree r.name.data = true ∧ r.name ≠ "") →
      st.extra_recs_vars = namesFlatStr names →
      processList mtype syn api st prots = Except.ok stF →
      stF.extra_recs_vars
          = namesFlatStr (names ++ (specDedup names (allExtraRecs prots)).map (fun r => r.name)) ∧
      stF.extra_recs
          = st.extra_recs ++ String.join ((specDedup names (allExtraRecs prots)).map (extra_rec_fragment api)) := by
  intro prots
  induction prots with
  | nil =>
    intro st names stF h1 h2 hv h
    simp only [processList] at h
    cases h
    constructor
    · rw [hv, allExtraRecs, specDedup]
      simp
    · rw [allExtraRecs, specDedup]
      simp [String.join]
  | cons np rest ih =>
    intro st names stF h1 h2 hv h
    simp only [processList] at h
    cases hp : process_prot mtype syn api st np with
    | error e => rw [hp] at h; exact absurd h (by simp)
    | ok st1 =>
      rw [hp] at h
      have hx := process_prot_extra_fields mtype syn api st st1 np hp
      have hrecs : allExtraRecs (np :: rest) = protRecs np.2 ++ allExtraRecs rest := rfl
      have h2l : ∀ r ∈ protRecs np.2, sepFree r.name.data = true ∧ r.name ≠ "" := by
        intro r hrm
        refine h2 r ?_
        rw [hrecs]
        exact List.mem_append.mpr (Or.inl hrm)
      have h2r : ∀ r ∈ allExtraRecs rest, sepFree r.name.data = true ∧ r.name ≠ "" := by
        intro r hrm
        refine h2 r ?_
        rw [hrecs]
        exact List.mem_append.mpr (Or.inr hrm)
      obtain ⟨ha1, ha2⟩ := add_extra_recs_dedup api (protRecs np.2) st names h1 h2l hv
      have hb1 : st1.extra_recs_vars
          = namesFlatStr (names ++ (specDedup names (protRecs np.2)).map (fun r => r.name)) := by
        rw [hx.1, extra_step_as_add, ha1]
      have h1b : ∀ n ∈ names ++ (specDedup names (protRecs np.2)).map (fun r => r.name),
          sepFree n.data = true := by
        intro n hn
        rcases List.mem_append.mp hn with hn | hn
        · exact h1 n hn
        · obtain ⟨x, hx2, hxx⟩ := List.mem_map.mp hn
          rw [← hxx]
          exact (h2l x (specDedup_mem (protRecs np.2) names x hx2)).1
      obtain ⟨hc1, hc2⟩ := ih st1 (names ++ (specDedup names (protRecs np.2)).map (fun r => r.name))
        stF h1b h2r hb1 h
      constructor
      · rw [hc1, hrecs, specDedup_append, List.map_append, ← List.append_assoc]
      · rw [hc2, hx.2, extra_step_as_add, ha2, hrecs, specDedup_append, List.map_append,
          strJoin_append, String.append_assoc]

/-- C4 (amended): provided every extra-recording name is non-empty and
contains no `", "` separator, only the first occurrence of each name — in
protocol iteration order, then list order — produces a declaration/attachment
fragment: the final extra-recordings script is the concatenation of the
fragments of the first-occurrence sublist (`specDedup`), the variable list
registers exactly those names in first-seen order, and registering a name that
is already registered leaves the state unchanged.  Without that proviso the
claim fails (see the counterexample: a duplicate name containing `", "` is
registered twice, because the duplicate check splits the accumulated string at
`", "`). -/
theorem claim_C4_first_occurrence (prots : List (String × Prot)) (mtype : String) (syn : Bool)
    (api : Int) (st : HocState)
    (hnames : ∀ r ∈ allExtraRecs prots, sepFree r.name.data = true ∧ r.name ≠ "")
    (h : hocStimuliCreatorInit prots mtype syn api = Except.ok st) :
    st.extra_recs = String.join ((specDedup [] (allExtraRecs prots)).map (extra_rec_fragment api)) ∧
    st.extra_recs_vars = namesFlatStr ((specDedup [] (allExtraRecs prots)).map (fun r => r.name)) ∧
    (∀ (api2 : Int) (st2 : HocState) (names : List String) (r : ExtraRec),
      (∀ n ∈ names, sepFree n.data = true) → r.name ≠ "" →
      st2.extra_recs_vars = namesFlatStr names → r.name ∈ names →
      add_extra_rec api2 st2 r = st2) := by
  unfold hocStimuliCreatorInit at h
  cases hp : processList mtype syn api initState prots with
  | error e => rw [hp] at h; exact absurd h (by simp)
  | ok st0 =>
    rw [hp] at h
    cases h
    obtain ⟨h1, h2⟩ := processList_dedup mtype syn api prots initState [] st0
      (by intro n hn; simp at hn) hnames rfl hp
    refine ⟨?_, ?_, ?_⟩
    · show st0.extra_recs = _
      rw [h2]
      exact String.empty_append _
    · show st0.extra_recs_vars = _
      rw [h1]
      rfl
    · intro api2 st2 names r hn hr hv hmem
      refine add_extra_rec_skip api2 st2 r ?_
      rw [hv]
      exact (split_contains_iff names hn r.name hr).mpr hmem

/-- C4 counterexample: with the extra-recording name `a, b` occurring twice,
the later (duplicate) occurrence is registered again — the variable list ends
as `", a, b, a, b"` and the declaration fragment is emitted twice — because
the duplicate check splits the accumulated variable string at `", "` and
`"a, b"` is never one of the split components. -/
theorem claim_C4_counterexample :
    (hocStimuliCreatorInit [("P", cexProt)] "m" false 0).map (fun st => st.extra_recs_vars)
        = Except.ok ", a, b, a, b" ∧
    (hocStimuliCreatorInit [("P", cexProt)] "m" false 0).map (fun st => st.extra_recs)
        = Except.ok (extra_rec_fragment 0 recAB ++ extra_rec_fragment 0 recAB) :=
  ⟨rfl, rfl⟩

set_option maxHeartbeats 1000000 in
theorem c4St_eq : hocStimuliCreatorInit c4Prots "L5TPC" false (-1) = Except.ok c4St := rfl

/-- Witness for the amended C4 at the concrete mapping `c4Prots`, whose
separator-free names `rx`, `ry` occur with duplicates. -/
theorem claim_C4_witness :
    c4St.extra_recs = String.join ((specDedup [] (allExtraRecs c4Prots)).map (extra_rec_fragment (-1))) ∧
    c4St.extra_recs_vars = namesFlatStr ((specDedup [] (allExtraRecs c4Prots)).map (fun r => r.name)) ∧
    (∀ (api2 : Int) (st2 : HocState) (names : List String) (r : ExtraRec),
      (∀ n ∈ names, sepFree n.data = true) → r.name ≠ "" →
      st2.extra_recs_vars = namesFlatStr names → r.name ∈ names →
      add_extra_rec api2 st2 r = st2) :=
  claim_C4_first_occurrence c4Prots "L5TPC" false (-1) c4St (by decide) c4St_eq
